import Mathlib

/-!
Shallow embedding of the `WorldBackground` canvas renderer and the
leaderboard local-cache helper of the `inprog` repository.

JS strings are modelled as `List Char`; JS numbers as `ℚ` (a `none` of
`Option ℚ` stands for a non-finite number where `Number.isFinite` is
tested in the source).  External library calls (d3-geo `fitExtent`,
`invert`, `geoContains`, `geoPath().centroid`, and the `iso-3166-1`
table) are parameters of a `GeoEnv` record: each is an opaque function
the component consumes, and the claims quantify over them.
-/

namespace WB

abbrev Str := List Char

/-- `String.prototype.toUpperCase` restricted to ASCII (the inputs the
claims exercise are ASCII). -/
def jsToUpper (c : Char) : Char :=
  if 'a' ≤ c ∧ c ≤ 'z' then Char.ofNat (c.toNat - 32) else c

def strUpper (s : Str) : Str := s.map jsToUpper

/-- `String.prototype.trim`: strip whitespace from both ends. -/
def jsTrim (s : Str) : Str :=
  ((s.dropWhile Char.isWhitespace).reverse.dropWhile Char.isWhitespace).reverse

def isUpperAlpha (c : Char) : Bool := 'A' ≤ c && c ≤ 'Z'

/-- The regex `/^[A-Z]{2}$/` of `normalizeCountryCode`. -/
def isTwoUpper (s : Str) : Bool := s.length == 2 && s.all isUpperAlpha

/-- `String.prototype.padStart(3, '0')`. -/
def padStart3 (s : Str) : Str :=
  if s.length ≥ 3 then s else List.replicate (3 - s.length) '0' ++ s

/-- Association-list update with JS object / `Map.set` semantics:
overwrite the first binding of the key, else append. -/
def setEntry {β : Type} : List (Str × β) → Str → β → List (Str × β)
  | [], k, v => [(k, v)]
  | (k', v') :: rest, k, v =>
      if k' = k then (k, v) :: rest else (k', v') :: setEntry rest k v

/-- Association-list lookup with JS object / `Map.get` semantics:
value of the first binding of the key, `none` when absent. -/
def lookupE {β : Type} : List (Str × β) → Str → Option β
  | [], _ => none
  | (k', v) :: rest, k => if k' = k then some v else lookupE rest k

/-- `lib/leaderboard.ts : normalizeCountryCode` — `undefined` on falsy
input, else trim + uppercase and require exactly two uppercase letters. -/
def normalizeCountryCode (input : Option Str) : Option Str :=
  match input with
  | none => none
  | some s =>
      if s = [] then none
      else
        let code := strUpper (jsTrim s)
        if isTwoUpper code then some code else none

/-- `lib/leaderboard.ts : incrementCountry`.  The counts store is the
`localStorage`-backed map; the result is `none` when the function
returns early (no write to the store, no `leaderboard:update` event)
and `some` of the map passed to `setCounts` otherwise.  `delta = none`
models a non-finite number (`Number.isFinite(delta)` false). -/
def incrementCountry (code : Str) (delta : Option ℚ) (counts : List (Str × ℚ)) :
    Option (List (Str × ℚ)) :=
  match normalizeCountryCode (some code) with
  | none => none
  | some cc =>
      let cur := (lookupE counts cc).getD 0
      let d := delta.getD 1
      some (setEntry counts cc (cur + d))

/-- JS `Set.prototype.add`: append if absent (insertion order kept). -/
def addToSet (l : List Str) (x : Str) : List Str :=
  if x ∈ l then l else l ++ [x]

/-- The `world:pin` handler `onPin`: a falsy `detail?.code` is ignored,
otherwise the code is uppercased and added to the pin set — the source
performs no two-letter validation here. -/
def onPin (detail : Option Str) (pinned : List Str) : List Str :=
  match detail with
  | none => pinned
  | some code => if code = [] then pinned else addToSet pinned (strUpper code)

/-- The projection state the component keeps: d3's `GeoProjection`
restricted to the parameters the source reads or writes (`scale`,
`translate`). -/
structure Proj where
  scale : ℚ
  tx : ℚ
  ty : ℚ
  deriving DecidableEq, Repr

/-- A GeoJSON country feature as the source consumes it: only its `id`
is inspected directly; geometry is handled through `GeoEnv`. -/
structure Feature where
  id : Option Str
  deriving DecidableEq, Repr

/-- The external libraries the component calls, as opaque functions:
`fit e g` is d3's `fitExtent` (`none` = the call threw); `invert` is
`projection.invert` (`none` = no preimage); `contains` is d3's
`geoContains`; `centroid p f` is `geoPath(p).centroid(f)` (`none` = the
call threw or a coordinate was non-finite); `isoTable` is the
`iso-3166-1` numeric→alpha-2 table; `twoPi` stands for `2 * Math.PI`. -/
structure GeoEnv where
  fit : (ℚ × ℚ) × (ℚ × ℚ) → ℕ → Option Proj
  invert : Proj → ℚ × ℚ → Option (ℚ × ℚ)
  contains : Feature → ℚ × ℚ → Bool
  centroid : Proj → Feature → Option (ℚ × ℚ)
  isoTable : List (Str × Str)
  twoPi : ℚ

inductive BlipKind where
  | new
  | repeat
  deriving DecidableEq, Repr

structure Blip where
  x : ℚ
  y : ℚ
  kind : BlipKind
  start : ℚ
  deriving DecidableEq, Repr

/-- The mutable closure state of the `WorldBackground` effect: viewport
size, projection, the three geometry slots, centroid index, pin set and
live blip list.  Land/border geometry is an opaque token (`ℕ`) fed to
`GeoEnv.fit`. -/
structure RState where
  width : ℤ
  height : ℤ
  proj : Option Proj
  landGeo : Option ℕ
  countryLines : Option ℕ
  countriesFC : Option (List Feature)
  centroids : List (Str × (ℚ × ℚ))
  pinned : List Str
  blips : List Blip
  deriving DecidableEq, Repr

/-- One canvas drawing step of a frame, recording the parameters the
claims talk about. -/
inductive DrawOp where
  | gradient
  | land
  | boundaries
  | pin (code : Str) (x y : ℚ)
  | blipNew (x y radius alpha : ℚ)
  | blipRepeat (x y radius alpha : ℚ)
  deriving DecidableEq, Repr

/-- `lib/leaderboard.ts : alpha2FromNumeric` — pad the numeric id to
three digits, look it up in the ISO table, uppercase a truthy alpha-2. -/
def alpha2FromNumeric (iso : List (Str × Str)) (numeric : Option Str) : Option Str :=
  match numeric with
  | none => none
  | some n =>
      match lookupE iso (padStart3 n) with
      | none => none
      | some a2 => if a2 = [] then none else some (strUpper a2)

/-- `setSize`: floor the bounding rect, and when land geometry is
present rebuild the projection: fit to the padded extent and upscale by
1.06, or on a `fitExtent` failure fall back to `width / (2π) * 1.06`
translated to the viewport centre.  Without geometry the projection is
left as it was. -/
def setSize (env : GeoEnv) (s : RState) (rectW rectH : ℚ) : RState :=
  let w : ℤ := ⌊rectW⌋
  let h : ℤ := ⌊rectH⌋
  let wq : ℚ := w
  let hq : ℚ := h
  let proj' :=
    match s.landGeo with
    | none => s.proj
    | some g =>
        let padding := max 12 (min wq hq * (28 / 1000))
        match env.fit ((padding, padding), (wq - padding, hq - padding)) g with
        | some p => some { p with scale := p.scale * (106 / 100) }
        | none => some ⟨wq / env.twoPi * (106 / 100), wq / 2, hq / 2⟩
  { s with width := w, height := h, proj := proj' }

/-- The feature loop of `computeCentroids`, threading the (cleared)
index as accumulator: skip features whose padded id has no alpha-2
mapping, skip features whose centroid throws or is non-finite, else
`Map.set` the centroid under the alpha-2 key. -/
def buildCentroids (env : GeoEnv) (p : Proj) (acc : List (Str × (ℚ × ℚ))) :
    List Feature → List (Str × (ℚ × ℚ))
  | [] => acc
  | feat :: rest =>
      buildCentroids env p
        (match alpha2FromNumeric env.isoTable (some (padStart3 (feat.id.getD []))) with
          | none => acc
          | some a2 =>
              match env.centroid p feat with
              | some c => setEntry acc a2 c
              | none => acc)
        rest

/-- `computeCentroids`: a no-op without projection or feature
collection; otherwise clear the index and repopulate it from scratch
under the current projection. -/
def computeCentroids (env : GeoEnv) (s : RState) : RState :=
  match s.proj, s.countriesFC with
  | some p, some fc => { s with centroids := buildCentroids env p [] fc }
  | _, _ => s

/-- The `resize` listener: `setSize()` then `computeCentroids()`. -/
def onResize (env : GeoEnv) (s : RState) (rectW rectH : ℚ) : RState :=
  computeCentroids env (setSize env s rectW rectH)

/-- `drawPins`: nothing without a projection, else one glow-dot-plus-ring
pin per pinned code that has an indexed centroid; codes without a
centroid are skipped. -/
def drawPins (s : RState) : List DrawOp :=
  match s.proj with
  | none => []
  | some _ =>
      s.pinned.filterMap fun code =>
        (lookupE s.centroids code).map fun pos => DrawOp.pin code pos.1 pos.2

def blipDuration : BlipKind → ℚ
  | .new => 760
  | .repeat => 420

/-- `Math.min(1, Math.max(0, x))`. -/
def clamp01 (x : ℚ) : ℚ := min 1 (max 0 x)

/-- The body of the `drawBlips` loop for one blip: `none` when
`elapsed` exceeds the kind's duration (the `continue` branch — the blip
is neither drawn nor kept), otherwise the draw op with the interpolated
radius and opacity at `t = clamp(elapsed / duration)`. -/
def blipStep (now : ℚ) (b : Blip) : Option DrawOp :=
  match b.kind with
  | .new =>
      if now - b.start > 760 then none
      else
        some (DrawOp.blipNew b.x b.y (4 + clamp01 ((now - b.start) / 760) * 18)
          (1 - clamp01 ((now - b.start) / 760)))
  | .repeat =>
      if now - b.start > 420 then none
      else
        some (DrawOp.blipRepeat b.x b.y (8 + clamp01 ((now - b.start) / 420) * 12)
          (max 0 ((85 / 100) * (1 - clamp01 ((now - b.start) / 420)))))

/-- `drawBlips`: per live blip compute `elapsed = now − start`; a blip
past its kind's duration is dropped, otherwise it is drawn and kept
(`nextBlips`).  Returns the draw ops and the spliced-in next live
list. -/
def drawBlips (now : ℚ) : List Blip → List DrawOp × List Blip
  | [] => ([], [])
  | b :: rest =>
      match blipStep now b with
      | none => drawBlips now rest
      | some op => (op :: (drawBlips now rest).1, b :: (drawBlips now rest).2)

/-- One animation `frame`: gradient background always; land, border and
pin passes are no-ops when their geometry or the projection is absent;
the blip pass also updates the live blip list. -/
def frame (s : RState) (now : ℚ) : List DrawOp × RState :=
  let landOps : List DrawOp :=
    if s.proj.isSome ∧ s.landGeo.isSome then [DrawOp.land] else []
  let borderOps : List DrawOp :=
    if s.proj.isSome ∧ s.countryLines.isSome then [DrawOp.boundaries] else []
  let (blipOps, blips') := drawBlips now s.blips
  (DrawOp.gradient :: (landOps ++ borderOps ++ drawPins s ++ blipOps),
    { s with blips := blips' })

/-- The canvas `click` handler: canvas-local coordinates, inverse
projection, linear first-match `geoContains` scan, alpha-2 resolution;
on success return the selection-callback argument and push a `new` blip
at the cached centroid (or the raw click point).  The first component is
the argument `onCountrySelect` is invoked with (`none` = not invoked). -/
def onClick (env : GeoEnv) (s : RState) (clientX clientY rectL rectT now : ℚ) :
    Option Str × RState :=
  match s.proj, s.countriesFC with
  | some p, some fc =>
      let x := clientX - rectL
      let y := clientY - rectT
      match env.invert p (x, y) with
      | none => (none, s)
      | some lonlat =>
          match fc.find? (fun feat => env.contains feat lonlat) with
          | none => (none, s)
          | some m =>
              match alpha2FromNumeric env.isoTable (some (padStart3 (m.id.getD []))) with
              | none => (none, s)
              | some a2 =>
                  let pos := (lookupE s.centroids a2).getD (x, y)
                  (some a2, { s with blips := s.blips ++ [⟨pos.1, pos.2, .new, now⟩] })
  | _, _ => (none, s)

/-- The payload of a `world:hover` event. -/
structure HoverDetail where
  code : Option Str
  hx : ℚ
  hy : ℚ
  deriving DecidableEq, Repr

def dist2 (mx my : ℚ) (pos : ℚ × ℚ) : ℚ :=
  (pos.1 - mx) * (pos.1 - mx) + (pos.2 - my) * (pos.2 - my)

/-- The nearest-centroid loop of `onPointerMove`: walk the index in
iteration order threading the best-so-far `(code, d2)` pair, replacing
it only on a strictly smaller squared distance. -/
def nearestFold (mx my : ℚ) (acc : Option (Str × ℚ)) :
    List (Str × (ℚ × ℚ)) → Option (Str × ℚ)
  | [] => acc
  | e :: rest =>
      nearestFold mx my
        (match acc with
          | none => some (e.1, dist2 mx my e.2)
          | some (_, best) =>
              if dist2 mx my e.2 < best then some (e.1, dist2 mx my e.2) else acc)
        rest

/-- The `pointermove` handler: early-out (no event dispatched) without a
projection or with an empty centroid index; otherwise dispatch the
nearest code when its distance is within 20px (the source compares
`Math.sqrt(d2) <= 20`, which over nonnegative `d2` is `d2 ≤ 400`), else
a `none` code — always with the canvas-local pointer position. -/
def onPointerMove (s : RState) (clientX clientY rectL rectT : ℚ) : Option HoverDetail :=
  match s.proj with
  | none => none
  | some _ =>
      if s.centroids = [] then none
      else
        let mx := clientX - rectL
        let my := clientY - rectT
        match nearestFold mx my none s.centroids with
        | none => some ⟨none, mx, my⟩
        | some (code, d2) =>
            if d2 ≤ 400 then some ⟨some code, mx, my⟩ else some ⟨none, mx, my⟩

/-- The `pointerleave` handler: always dispatch a no-country hover at
the sentinel position (−1, −1). -/
def onPointerLeave : HoverDetail := ⟨none, -1, -1⟩

/-- The fallback scan of the `world:blip` handler: walk the features for
the first whose padded id resolves to the requested code, compute its
centroid on the fly, cache it on success, and stop (`break`) whether or
not the centroid was usable. -/
def fallbackScan (env : GeoEnv) (p : Proj) (code : Str)
    (cents : List (Str × (ℚ × ℚ))) :
    List Feature → Option (ℚ × ℚ) × List (Str × (ℚ × ℚ))
  | [] => (none, cents)
  | feat :: rest =>
      match alpha2FromNumeric env.isoTable (some (padStart3 (feat.id.getD []))) with
      | some a2 =>
          if a2 = code then
            match env.centroid p feat with
            | some c => (some c, setEntry cents code c)
            | none => (none, cents)
          else fallbackScan env p code cents rest
      | none => fallbackScan env p code cents rest

/-- The `world:blip` handler: ignore a detail without a string code;
uppercase the code, look its centroid up (falling back to an on-the-fly
scan when projection and features are available), and push a blip of the
requested kind there — or do nothing when no position is found. -/
def onBlip (env : GeoEnv) (detail : Option (Str × BlipKind)) (s : RState) (now : ℚ) :
    RState :=
  match detail with
  | none => s
  | some (rawCode, kind) =>
      let code := strUpper rawCode
      let (pos, centroids') :=
        match lookupE s.centroids code with
        | some p => (some p, s.centroids)
        | none =>
            match s.proj, s.countriesFC with
            | some p, some fc => fallbackScan env p code s.centroids fc
            | _, _ => (none, s.centroids)
      match pos with
      | none => { s with centroids := centroids' }
      | some pt =>
          { s with
              centroids := centroids'
              blips := s.blips ++ [⟨pt.1, pt.2, kind, now⟩] }

/-! ## Concrete fixtures used by witness theorems -/

/-- An environment whose external calls all succeed: `fitExtent`
returns a fixed projection, `invert` is the identity, `geoContains`
always matches, centroids land at `(7, 8)`, and the ISO table maps
`840 ↦ US`. -/
def envA : GeoEnv :=
  ⟨fun _ _ => some ⟨2, 3, 4⟩, fun _ pt => some pt, fun _ _ => true,
    fun _ _ => some (7, 8), [("840".toList, "US".toList)], 6⟩

/-- An environment whose external calls all fail. -/
def envB : GeoEnv :=
  ⟨fun _ _ => none, fun _ _ => none, fun _ _ => false, fun _ _ => none, [], 6⟩

/-- A fully loaded state: one country feature (id 840), its centroid
indexed at `(7, 8)`. -/
def sGeo : RState :=
  ⟨100, 80, some ⟨1, 0, 0⟩, some 0, some 0, some [⟨some "840".toList⟩],
    [("US".toList, (7, 8))], [], []⟩

/-- `sGeo` with the `US` code additionally pinned. -/
def sPinnedGeo : RState :=
  ⟨100, 80, some ⟨1, 0, 0⟩, some 0, some 0, some [⟨some "840".toList⟩],
    [("US".toList, (7, 8))], ["US".toList], []⟩

/-- A state with a projection but an empty centroid index. -/
def sEmptyCent : RState :=
  ⟨100, 80, some ⟨1, 0, 0⟩, none, none, none, [], [], []⟩

/-- The state after a failed geometry load: no projection, no geometry,
nothing indexed. -/
def sNoGeo : RState := ⟨100, 50, none, none, none, none, [], [], []⟩

/-- A pre-load state holding one pinned (valid, two-uppercase-letter)
code. -/
def sPinned : RState := ⟨0, 0, none, none, none, none, [], ["ZZ".toList], []⟩

/-! ## Helper lemmas -/

lemma jsToUpper_fix (c : Char) (h : isUpperAlpha c = true) : jsToUpper c = c := by
  simp only [isUpperAlpha, Bool.and_eq_true, decide_eq_true_eq] at h
  unfold jsToUpper
  rw [if_neg]
  rintro ⟨hac, _⟩
  exact absurd (le_trans hac h.2) (by decide)

lemma strUpper_fix (s : Str) (h : s.all isUpperAlpha = true) : strUpper s = s := by
  rw [List.all_eq_true] at h
  unfold strUpper
  induction s with
  | nil => rfl
  | cons c cs ih =>
      simp only [List.map_cons]
      rw [jsToUpper_fix c (h c (by simp)), ih (fun x hx => h x (by simp [hx]))]

lemma isTwoUpper_strUpper (s : Str) (h : isTwoUpper s = true) :
    isTwoUpper (strUpper s) = true := by
  rw [strUpper_fix s (by simp only [isTwoUpper, Bool.and_eq_true] at h; exact h.2)]
  exact h

lemma lookupE_setEntry_self {β : Type} (m : List (Str × β)) (k : Str) (v : β) :
    lookupE (setEntry m k v) k = some v := by
  induction m with
  | nil => simp [setEntry, lookupE]
  | cons hd tl ih =>
      rcases hd with ⟨a, b⟩
      by_cases h : a = k
      · simp [setEntry, lookupE, h]
      · simp [setEntry, lookupE, h, ih]

lemma lookupE_setEntry_isSome {β : Type} (m : List (Str × β)) (k k' : Str) (v : β) :
    (lookupE (setEntry m k v) k').isSome = true ↔
      k' = k ∨ (lookupE m k').isSome = true := by
  induction m with
  | nil =>
      by_cases h : k = k'
      · subst h
        simp [setEntry, lookupE]
      · simp [setEntry, lookupE, h, Ne.symm h]
  | cons hd tl ih =>
      rcases hd with ⟨a, b⟩
      show (lookupE (if a = k then (k, v) :: tl else (a, b) :: setEntry tl k v) k').isSome
          = true ↔ _
      by_cases hak : a = k
      · rw [if_pos hak]
        subst hak
        by_cases hk : k' = a
        · subst hk
          rw [lookupE, if_pos rfl, lookupE, if_pos rfl]
          simp
        · rw [lookupE, if_neg (fun hh : a = k' => hk hh.symm), lookupE,
            if_neg (fun hh : a = k' => hk hh.symm)]
          constructor
          · exact fun h => Or.inr h
          · rintro (h | h)
            · exact absurd h hk
            · exact h
      · rw [if_neg hak]
        by_cases hk : a = k'
        · subst hk
          rw [lookupE, if_pos rfl, lookupE, if_pos rfl]
          simp
        · rw [lookupE, if_neg hk, lookupE, if_neg hk]
          exact ih

lemma mem_setEntry {β : Type} {m : List (Str × β)} {k k' : Str} {v v' : β}
    (h : (k', v') ∈ setEntry m k v) : (k' = k ∧ v' = v) ∨ (k', v') ∈ m := by
  induction m with
  | nil =>
      rw [show setEntry ([] : List (Str × β)) k v = [(k, v)] from rfl,
        List.mem_singleton] at h
      exact Or.inl ⟨congrArg Prod.fst h, congrArg Prod.snd h⟩
  | cons hd tl ih =>
      rcases hd with ⟨a, b⟩
      by_cases hh : a = k
      · rw [show setEntry ((a, b) :: tl) k v = (k, v) :: tl from by
            simp [setEntry, hh]] at h
        rcases List.mem_cons.mp h with h1 | h1
        · exact Or.inl ⟨congrArg Prod.fst h1, congrArg Prod.snd h1⟩
        · exact Or.inr (List.mem_cons_of_mem _ h1)
      · rw [show setEntry ((a, b) :: tl) k v = (a, b) :: setEntry tl k v from by
            simp [setEntry, hh]] at h
        rcases List.mem_cons.mp h with h1 | h1
        · exact Or.inr (h1 ▸ List.mem_cons_self _ _)
        · rcases ih h1 with h2 | h2
          · exact Or.inl h2
          · exact Or.inr (List.mem_cons_of_mem _ h2)

lemma mem_of_lookupE {β : Type} {m : List (Str × β)} {k : Str} {v : β}
    (h : lookupE m k = some v) : (k, v) ∈ m := by
  induction m with
  | nil => simp [lookupE] at h
  | cons hd tl ih =>
      rcases hd with ⟨a, b⟩
      by_cases hak : a = k
      · subst hak
        rw [lookupE, if_pos rfl] at h
        injection h with h
        exact h ▸ List.mem_cons_self _ _
      · rw [lookupE, if_neg hak] at h
        exact List.mem_cons_of_mem _ (ih h)

lemma alpha2FromNumeric_some (iso : List (Str × Str)) (n : Str) :
    alpha2FromNumeric iso (some n) =
      match lookupE iso (padStart3 n) with
      | none => none
      | some a2 => if a2 = [] then none else some (strUpper a2) := rfl

lemma onPin_some (c : Str) (pinned : List Str) :
    onPin (some c) pinned =
      if c = [] then pinned else addToSet pinned (strUpper c) := rfl

/-! ## Claim theorems -/

/-- C10: `incrementCountry` on an input that does not normalize (after
trimming and uppercasing) to exactly two ASCII uppercase letters makes
no state change — the counts mapping is not written and no update event
is emitted (modelled as the `none` result); on an input that does
normalize, the count stored for the normalized code increases by the
given delta, or by 1 when the delta is not a finite number. -/
theorem C10_incrementCountry (code : Str) (delta : Option ℚ) (counts : List (Str × ℚ)) :
    ((code = [] ∨ isTwoUpper (strUpper (jsTrim code)) = false) →
      incrementCountry code delta counts = none) ∧
    (∀ cc : Str, code ≠ [] → strUpper (jsTrim code) = cc → isTwoUpper cc = true →
      incrementCountry code delta counts =
        some (setEntry counts cc ((lookupE counts cc).getD 0 + delta.getD 1)) ∧
      lookupE (setEntry counts cc ((lookupE counts cc).getD 0 + delta.getD 1)) cc =
        some ((lookupE counts cc).getD 0 + delta.getD 1)) := by
  constructor
  · rintro (h | h) <;>
      simp [incrementCountry, normalizeCountryCode, h]
  · intro cc hne hcc hup
    subst hcc
    refine ⟨?_, lookupE_setEntry_self _ _ _⟩
    simp [incrementCountry, normalizeCountryCode, hne, hup]

/-- C10 witness: `" us "` normalizes to `US`, whose count rises by the
finite delta 5 from 0; `"usa"` does not normalize and changes nothing. -/
theorem C10_incrementCountry_witness :
    (incrementCountry " us ".toList (some 5) [] =
        some (setEntry [] "US".toList
          ((lookupE [] "US".toList).getD 0 + (some (5:ℚ)).getD 1)) ∧
      lookupE (setEntry ([] : List (Str × ℚ)) "US".toList
          ((lookupE [] "US".toList).getD 0 + (some (5:ℚ)).getD 1)) "US".toList =
        some ((lookupE ([] : List (Str × ℚ)) "US".toList).getD 0 + (some (5:ℚ)).getD 1)) ∧
    incrementCountry "usa".toList (some 5) [] = none :=
  ⟨(C10_incrementCountry " us ".toList (some 5) []).2 "US".toList (by decide) (by decide)
      (by decide),
    (C10_incrementCountry "usa".toList (some 5) []).1 (Or.inr (by decide))⟩

/-- C1 counterexample: the pin event `{ code: "usa" }` stores `"USA"` —
a three-letter key — in the Pin Set: `onPin` performs no
two-uppercase-letter validation, so the claim's invariant fails. -/
theorem C1_pin_validation_counterexample :
    "USA".toList ∈ onPin (some "usa".toList) [] ∧ isTwoUpper "USA".toList = false := by
  decide

/-- C1 amended: pin codes are only uppercased, never validated — any
non-empty code is stored uppercased in the Pin Set; the Centroid Index,
by contrast, only ever holds keys produced by the ISO numeric→alpha-2
table, so its keys are two uppercase letters whenever the table's
alpha-2 values are. -/
theorem C1_amended_validation (env : GeoEnv) (s : RState) (p : Proj) (fc : List Feature)
    (detail : Option Str) (pinned : List Str) (x : Str)
    (hp : s.proj = some p) (hfc : s.countriesFC = some fc)
    (hiso : env.isoTable.all (fun kv => isTwoUpper kv.2) = true) :
    (x ∈ onPin detail pinned ↔
      x ∈ pinned ∨ ∃ c, detail = some c ∧ c ≠ [] ∧ x = strUpper c) ∧
    (computeCentroids env s).centroids.all (fun kv => isTwoUpper kv.1) = true := by
  constructor
  · cases detail with
    | none => simp [onPin]
    | some c =>
        by_cases hc : c = []
        · simp [onPin_some, hc]
        · rw [onPin_some, if_neg hc]
          unfold addToSet
          by_cases hmem : strUpper c ∈ pinned
          · rw [if_pos hmem]
            constructor
            · intro h; exact Or.inl h
            · rintro (h | ⟨c', hc', _, hx⟩)
              · exact h
              · cases hc'; exact hx ▸ hmem
          · rw [if_neg hmem]
            constructor
            · intro h
              rcases List.mem_append.mp h with h | h
              · exact Or.inl h
              · exact Or.inr ⟨c, rfl, hc, List.mem_singleton.mp h⟩
            · rintro (h | ⟨c', hc', _, hx⟩)
              · exact List.mem_append.mpr (Or.inl h)
              · cases hc'
                exact List.mem_append.mpr (Or.inr (List.mem_singleton.mpr hx))
  · rw [List.all_eq_true] at hiso ⊢
    intro kv hkv
    unfold computeCentroids at hkv
    rw [hp, hfc] at hkv
    simp only at hkv
    suffices hgen : ∀ (l : List Feature) (acc : List (Str × (ℚ × ℚ))),
        (∀ kv' ∈ acc, isTwoUpper kv'.1 = true) →
        ∀ kv' ∈ buildCentroids env p acc l, isTwoUpper kv'.1 = true by
      exact hgen fc [] (by simp) kv hkv
    intro l
    induction l with
    | nil => intro acc hacc kv' h; exact hacc kv' h
    | cons feat rest ih =>
        intro acc hacc kv' h
        unfold buildCentroids at h
        revert h
        cases ha2 : alpha2FromNumeric env.isoTable (some (padStart3 (feat.id.getD []))) with
        | none => exact fun h => ih acc hacc kv' h
        | some a2 =>
            cases hc : env.centroid p feat with
            | none => exact fun h => ih acc hacc kv' h
            | some c =>
                intro h
                refine ih (setEntry acc a2 c) ?_ kv' h
                intro kv'' hkv''
                rcases mem_setEntry hkv'' with ⟨hk, _⟩ | hmem
                · rw [hk]
                  cases hl : lookupE env.isoTable (padStart3 (padStart3 (feat.id.getD []))) with
                  | none =>
                      rw [alpha2FromNumeric_some, hl] at ha2
                      exact Option.noConfusion ha2
                  | some raw =>
                      rw [alpha2FromNumeric_some, hl] at ha2
                      have ha2' : (if raw = [] then none else some (strUpper raw)) =
                          some a2 := ha2
                      by_cases hraw : raw = []
                      · rw [if_pos hraw] at ha2'
                        exact Option.noConfusion ha2'
                      · rw [if_neg hraw] at ha2'
                        injection ha2' with ha2'
                        rw [← ha2']
                        exact isTwoUpper_strUpper raw (hiso _ (mem_of_lookupE hl))
                · exact hacc kv'' hmem

/-- C1 amended witness: the pin iff at the `"usa"` event on an empty
pin set, and the Centroid Index keys of a concrete rebuild are all two
uppercase letters. -/
theorem C1_amended_validation_witness :
    ("USA".toList ∈ onPin (some "usa".toList) [] ↔
      "USA".toList ∈ ([] : List Str) ∨
        ∃ c, some "usa".toList = some c ∧ c ≠ [] ∧ "USA".toList = strUpper c) ∧
    (computeCentroids envA sGeo).centroids.all (fun kv => isTwoUpper kv.1) = true :=
  C1_amended_validation envA sGeo ⟨1, 0, 0⟩ [⟨some "840".toList⟩]
    (some "usa".toList) [] "USA".toList rfl rfl (by decide)

lemma blipStep_eq_none_iff (now : ℚ) (b : Blip) :
    blipStep now b = none ↔ blipDuration b.kind < now - b.start := by
  rcases b with ⟨x, y, k, st⟩
  cases k
  · by_cases h : (760 : ℚ) < now - st <;> simp [blipStep, blipDuration, h]
  · by_cases h : (420 : ℚ) < now - st <;> simp [blipStep, blipDuration, h]

lemma drawBlips_cons_dead (now : ℚ) (b : Blip) (rest : List Blip)
    (h : blipStep now b = none) :
    drawBlips now (b :: rest) = drawBlips now rest := by
  rw [drawBlips, h]

lemma drawBlips_cons_live (now : ℚ) (b : Blip) (rest : List Blip) (op : DrawOp)
    (h : blipStep now b = some op) :
    drawBlips now (b :: rest) =
      (op :: (drawBlips now rest).1, b :: (drawBlips now rest).2) := by
  rw [drawBlips, h]

lemma drawBlips_next_mem (now : ℚ) (l : List Blip) (b : Blip) :
    b ∈ (drawBlips now l).2 ↔ b ∈ l ∧ now - b.start ≤ blipDuration b.kind := by
  induction l with
  | nil => simp [drawBlips]
  | cons hd tl ih =>
      cases hstep : blipStep now hd with
      | none =>
          rw [drawBlips_cons_dead now hd tl hstep, ih]
          constructor
          · rintro ⟨hm, hd2⟩
            exact ⟨List.mem_cons_of_mem _ hm, hd2⟩
          · rintro ⟨hm, hd2⟩
            rcases List.mem_cons.mp hm with rfl | hm
            · exact absurd hd2 (not_le.mpr ((blipStep_eq_none_iff now b).mp hstep))
            · exact ⟨hm, hd2⟩
      | some op =>
          rw [drawBlips_cons_live now hd tl op hstep]
          simp only [List.mem_cons]
          constructor
          · rintro (rfl | hm)
            · refine ⟨Or.inl rfl, not_lt.mp ?_⟩
              intro hgt
              rw [(blipStep_eq_none_iff now b).mpr hgt] at hstep
              exact Option.noConfusion hstep
            · exact ⟨Or.inr (ih.mp hm).1, (ih.mp hm).2⟩
          · rintro ⟨rfl | hm, hd2⟩
            · exact Or.inl rfl
            · exact Or.inr (ih.mpr ⟨hm, hd2⟩)

lemma drawBlips_length (now : ℚ) (l : List Blip) :
    (drawBlips now l).1.length = (drawBlips now l).2.length := by
  induction l with
  | nil => rfl
  | cons hd tl ih =>
      cases hstep : blipStep now hd with
      | none => rw [drawBlips_cons_dead now hd tl hstep]; exact ih
      | some op => rw [drawBlips_cons_live now hd tl op hstep]; simp [ih]

lemma blipStep_mem_ops (now : ℚ) (l : List Blip) (b : Blip) (op : DrawOp)
    (hm : b ∈ l) (hs : blipStep now b = some op) : op ∈ (drawBlips now l).1 := by
  induction l with
  | nil => exact absurd hm (List.not_mem_nil b)
  | cons hd tl ih =>
      rcases List.mem_cons.mp hm with rfl | hm'
      · rw [drawBlips_cons_live now b tl op hs]
        exact List.mem_cons_self _ _
      · cases hstep : blipStep now hd with
        | none => rw [drawBlips_cons_dead now hd tl hstep]; exact ih hm'
        | some op' =>
            rw [drawBlips_cons_live now hd tl op' hstep]
            exact List.mem_cons_of_mem _ (ih hm')

lemma clamp01_of_bounds {x : ℚ} (h0 : 0 ≤ x) (h1 : x ≤ 1) : clamp01 x = x := by
  unfold clamp01
  rw [max_eq_right h0, min_eq_right h1]

/-- C4: on every scheduler pass (one `drawBlips` call), a blip is kept
in the live list iff it was live and its elapsed time `now − start`
does not exceed its kind's duration (760ms for `new`, 420ms for
`repeat`) — so it is dropped on the first pass where elapsed exceeds
the duration, and a blip absent from the list can never reappear; the
number of draw ops equals the number of surviving blips (each kept blip
is drawn). -/
theorem C4_blip_retention (now : ℚ) (l : List Blip) (b : Blip) :
    (b ∈ (drawBlips now l).2 ↔ b ∈ l ∧ now - b.start ≤ blipDuration b.kind) ∧
    (drawBlips now l).1.length = (drawBlips now l).2.length :=
  ⟨drawBlips_next_mem now l b, drawBlips_length now l⟩

/-- C3: a live `new` blip with elapsed `now − start` within 760ms is
drawn with radius `4 + 18·t` and opacity `1 − t` at
`t = elapsed / 760`; a live `repeat` blip within 420ms is drawn with
radius `8 + 12·t` and opacity `0.85·(1 − t)` at `t = elapsed / 420`. -/
theorem C3_blip_interpolation (now : ℚ) (l : List Blip) (b : Blip)
    (hm : b ∈ l) (h0 : 0 ≤ now - b.start) :
    (b.kind = .new → now - b.start ≤ 760 →
      DrawOp.blipNew b.x b.y (4 + (now - b.start) / 760 * 18)
        (1 - (now - b.start) / 760) ∈ (drawBlips now l).1) ∧
    (b.kind = .repeat → now - b.start ≤ 420 →
      DrawOp.blipRepeat b.x b.y (8 + (now - b.start) / 420 * 12)
        (85 / 100 * (1 - (now - b.start) / 420)) ∈ (drawBlips now l).1) := by
  constructor
  · intro hk hle
    refine blipStep_mem_ops now l b _ hm ?_
    have ht : clamp01 ((now - b.start) / 760) = (now - b.start) / 760 :=
      clamp01_of_bounds (div_nonneg h0 (by norm_num))
        ((div_le_one (by norm_num)).mpr hle)
    rw [blipStep, hk, if_neg (not_lt.mpr hle), ht]
  · intro hk hle
    refine blipStep_mem_ops now l b _ hm ?_
    have ht : clamp01 ((now - b.start) / 420) = (now - b.start) / 420 :=
      clamp01_of_bounds (div_nonneg h0 (by norm_num))
        ((div_le_one (by norm_num)).mpr hle)
    have hop : max 0 ((85 : ℚ) / 100 * (1 - (now - b.start) / 420)) =
        85 / 100 * (1 - (now - b.start) / 420) := by
      refine max_eq_right (mul_nonneg (by norm_num) ?_)
      have : (now - b.start) / 420 ≤ 1 := (div_le_one (by norm_num)).mpr hle
      linarith
    rw [blipStep, hk, if_neg (not_lt.mpr hle), ht, hop]

/-- C3 witness: a `new` blip at half-life (t = 1/2) and a `repeat` blip
at half-life are drawn with the interpolated radius and opacity. -/
theorem C3_blip_interpolation_witness :
    DrawOp.blipNew 1 2 (4 + (380 - 0) / 760 * 18) (1 - (380 - 0) / 760)
      ∈ (drawBlips 380 [⟨1, 2, .new, 0⟩]).1 ∧
    DrawOp.blipRepeat 1 2 (8 + (210 - 0) / 420 * 12)
        (85 / 100 * (1 - (210 - 0) / 420))
      ∈ (drawBlips 210 [⟨1, 2, .repeat, 0⟩]).1 :=
  ⟨(C3_blip_interpolation 380 [⟨1, 2, .new, 0⟩] ⟨1, 2, .new, 0⟩
      (List.mem_singleton.mpr rfl) (by norm_num)).1 rfl (by norm_num),
    (C3_blip_interpolation 210 [⟨1, 2, .repeat, 0⟩] ⟨1, 2, .repeat, 0⟩
      (List.mem_singleton.mpr rfl) (by norm_num)).2 rfl (by norm_num)⟩

lemma nearestFold_spec (mx my : ℚ) (l : List (Str × (ℚ × ℚ))) :
    ∀ (acc : Option (Str × ℚ)) (cc : Str) (dd : ℚ),
      nearestFold mx my acc l = some (cc, dd) →
      (acc = some (cc, dd) ∨ ∃ pos, (cc, pos) ∈ l ∧ dist2 mx my pos = dd) ∧
      (∀ e ∈ l, dd ≤ dist2 mx my e.2) ∧
      (∀ c₀ d₀, acc = some (c₀, d₀) → dd ≤ d₀) := by
  induction l with
  | nil =>
      intro acc cc dd h
      rw [nearestFold] at h
      refine ⟨Or.inl h, by simp, ?_⟩
      intro c₀ d₀ h₀
      rw [h] at h₀
      injection h₀ with h₀
      exact le_of_eq (show dd = d₀ from congrArg Prod.snd h₀)
  | cons e rest ih =>
      intro acc cc dd h
      cases acc with
      | none =>
          have h' : nearestFold mx my (some (e.1, dist2 mx my e.2)) rest =
              some (cc, dd) := h
          obtain ⟨hmem, hall, hle⟩ := ih _ cc dd h'
          refine ⟨?_, ?_, ?_⟩
          · rcases hmem with h1 | ⟨pos, hp1, hd1⟩
            · injection h1 with h1
              have hc1 : cc = e.1 := (congrArg Prod.fst h1).symm
              have hd1 : dd = dist2 mx my e.2 := (congrArg Prod.snd h1).symm
              refine Or.inr ⟨e.2, ?_, hd1.symm⟩
              have he : (cc, e.2) = e := by rw [hc1]
              rw [he]
              exact List.mem_cons_self _ _
            · exact Or.inr ⟨pos, List.mem_cons_of_mem _ hp1, hd1⟩
          · intro e' he'
            rcases List.mem_cons.mp he' with rfl | he'
            · exact hle _ _ rfl
            · exact hall e' he'
          · intro c₀ d₀ h₀
            exact Option.noConfusion h₀
      | some best =>
          rcases best with ⟨c₀', best⟩
          by_cases hlt : dist2 mx my e.2 < best
          · have h' : nearestFold mx my (some (e.1, dist2 mx my e.2)) rest =
                some (cc, dd) := by
              have hred : (match some (c₀', best) with
                  | none => some (e.1, dist2 mx my e.2)
                  | some (_, b) =>
                      if dist2 mx my e.2 < b then some (e.1, dist2 mx my e.2)
                      else some (c₀', b)) =
                  some (e.1, dist2 mx my e.2) := if_pos hlt
              rw [← hred]
              exact h
            obtain ⟨hmem, hall, hle⟩ := ih _ cc dd h'
            refine ⟨?_, ?_, ?_⟩
            · rcases hmem with h1 | ⟨pos, hp1, hd1⟩
              · injection h1 with h1
                have hc1 : cc = e.1 := (congrArg Prod.fst h1).symm
                have hd1 : dd = dist2 mx my e.2 := (congrArg Prod.snd h1).symm
                refine Or.inr ⟨e.2, ?_, hd1.symm⟩
                have he : (cc, e.2) = e := by rw [hc1]
                rw [he]
                exact List.mem_cons_self _ _
              · exact Or.inr ⟨pos, List.mem_cons_of_mem _ hp1, hd1⟩
            · intro e' he'
              rcases List.mem_cons.mp he' with rfl | he'
              · exact hle _ _ rfl
              · exact hall e' he'
            · intro c₀ d₀ h₀
              injection h₀ with h₀
              have h₀₂ := congrArg Prod.snd h₀
              simp only at h₀₂
              rw [← h₀₂]
              exact le_of_lt (lt_of_le_of_lt (hle _ _ rfl) hlt)
          · have h' : nearestFold mx my (some (c₀', best)) rest = some (cc, dd) := by
              have hred : (match some (c₀', best) with
                  | none => some (e.1, dist2 mx my e.2)
                  | some (_, b) =>
                      if dist2 mx my e.2 < b then some (e.1, dist2 mx my e.2)
                      else some (c₀', b)) =
                  some (c₀', best) := if_neg hlt
              rw [← hred]
              exact h
            obtain ⟨hmem, hall, hle⟩ := ih _ cc dd h'
            refine ⟨?_, ?_, ?_⟩
            · rcases hmem with h1 | ⟨pos, hp1, hd1⟩
              · exact Or.inl h1
              · exact Or.inr ⟨pos, List.mem_cons_of_mem _ hp1, hd1⟩
            · intro e' he'
              rcases List.mem_cons.mp he' with rfl | he'
              · exact le_trans (hle _ _ rfl) (not_lt.mp hlt)
              · exact hall e' he'
            · intro c₀ d₀ h₀
              injection h₀ with h₀
              have h₀₂ := congrArg Prod.snd h₀
              simp only at h₀₂
              rw [← h₀₂]
              exact hle _ _ rfl

/-- C2 counterexample: with a projection present but an empty centroid
index, a pointer-move dispatches no hover event at all (the handler
returns before `dispatchHover`), so "a hover event is emitted on every
pointer-move" fails. -/
theorem C2_hover_counterexample : onPointerMove sEmptyCent 5 6 0 0 = none := rfl

/-- C2 amended: while the projection is present and the centroid index
is non-empty, every pointer-move emits a hover event carrying the
canvas-local pointer position and the code of the nearest indexed
centroid when its squared distance is within 400 (= 20px squared, the
source compares `Math.sqrt(d2) <= 20`), a `none` code otherwise;
pointer-moves with an absent projection or an empty index emit nothing,
and pointer-leave always emits a no-country event at (−1, −1). -/
theorem C2_hover_nearest (s : RState) (cx cy rl rt : ℚ) (p : Proj)
    (code : Str) (d2 : ℚ)
    (hp : s.proj = some p) (hne : s.centroids ≠ [])
    (hn : nearestFold (cx - rl) (cy - rt) none s.centroids = some (code, d2)) :
    (d2 ≤ 400 → onPointerMove s cx cy rl rt = some ⟨some code, cx - rl, cy - rt⟩) ∧
    (¬d2 ≤ 400 → onPointerMove s cx cy rl rt = some ⟨none, cx - rl, cy - rt⟩) ∧
    (∃ pos, (code, pos) ∈ s.centroids ∧ dist2 (cx - rl) (cy - rt) pos = d2) ∧
    (∀ e ∈ s.centroids, d2 ≤ dist2 (cx - rl) (cy - rt) e.2) ∧
    onPointerLeave = ⟨none, -1, -1⟩ := by
  obtain ⟨hmem, hall, -⟩ := nearestFold_spec (cx - rl) (cy - rt) s.centroids none
    code d2 hn
  have hnear : ∃ pos, (code, pos) ∈ s.centroids ∧
      dist2 (cx - rl) (cy - rt) pos = d2 := by
    rcases hmem with h1 | h1
    · exact Option.noConfusion h1
    · exact h1
  refine ⟨?_, ?_, hnear, hall, rfl⟩
  · intro hle
    simp only [onPointerMove, hp, if_neg hne, hn]
    rw [if_pos hle]
  · intro hle
    simp only [onPointerMove, hp, if_neg hne, hn]
    rw [if_neg hle]

/-- C2 witness: over the single indexed centroid `US ↦ (7, 8)` a
pointer at (7, 8) has squared distance 0 ≤ 400 and the hover event
carries `US` with the pointer position. -/
theorem C2_hover_nearest_witness :
    onPointerMove sGeo 7 8 0 0 = some ⟨some "US".toList, 7 - 0, 8 - 0⟩ :=
  (C2_hover_nearest sGeo 7 8 0 0 ⟨1, 0, 0⟩ "US".toList
      (dist2 (7 - 0) (8 - 0) (7, 8)) rfl (by decide)
      rfl).1 (by norm_num [dist2])

lemma find_first_split {α : Type} (p : α → Bool) (l : List α) (a : α)
    (h : l.find? p = some a) :
    ∃ pre post, l = pre ++ a :: post ∧ (∀ x ∈ pre, p x = false) ∧ p a = true := by
  induction l with
  | nil => exact absurd h (by simp)
  | cons hd tl ih =>
      by_cases hp : p hd
      · rw [List.find?_cons_of_pos _ hp] at h
        injection h with h
        subst h
        exact ⟨[], tl, rfl, by simp, hp⟩
      · rw [List.find?_cons_of_neg _ hp] at h
        obtain ⟨pre, post, rfl, hpre, hpa⟩ := ih h
        refine ⟨hd :: pre, post, rfl, ?_, hpa⟩
        intro x hx
        rcases List.mem_cons.mp hx with rfl | hx
        · exact Bool.eq_false_iff.mpr hp
        · exact hpre x hx

/-- C5: a click with projection and features present, whose canvas
coordinates invert to a geographic point, is resolved by a linear
first-match containment scan; when the match's padded numeric id has an
alpha-2 code, the selection callback receives that code and a
`new`-kind blip is pushed at the cached centroid — or at the raw click
point when the code is not yet indexed (`getD`). -/
theorem C5_click_selection (env : GeoEnv) (s : RState) (p : Proj)
    (fc : List Feature) (cx cy rl rt now : ℚ) (ll : ℚ × ℚ) (m : Feature) (a2 : Str)
    (hp : s.proj = some p) (hfc : s.countriesFC = some fc)
    (hinv : env.invert p (cx - rl, cy - rt) = some ll)
    (hfind : fc.find? (fun feat => env.contains feat ll) = some m)
    (ha2 : alpha2FromNumeric env.isoTable (some (padStart3 (m.id.getD []))) = some a2) :
    onClick env s cx cy rl rt now =
      (some a2,
        { s with blips := s.blips ++
            [⟨((lookupE s.centroids a2).getD (cx - rl, cy - rt)).1,
              ((lookupE s.centroids a2).getD (cx - rl, cy - rt)).2, .new, now⟩] }) ∧
    env.contains m ll = true ∧
    (∃ pre post, fc = pre ++ m :: post ∧ ∀ f ∈ pre, env.contains f ll = false) := by
  obtain ⟨pre, post, hsplit, hpre, hpa⟩ :=
    find_first_split (fun feat => env.contains feat ll) fc m hfind
  refine ⟨?_, hpa, pre, post, hsplit, hpre⟩
  simp only [onClick, hp, hfc, hinv, hfind, ha2]

/-- C5 witness: with identity inversion, always-true containment, and
the table `840 ↦ US`, a click selects `US` and pushes a `new` blip at
the cached centroid `(7, 8)`. -/
theorem C5_click_selection_witness :
    onClick envA sGeo 10 20 0 0 99 =
      (some "US".toList,
        { sGeo with blips := sGeo.blips ++
            [⟨((lookupE sGeo.centroids "US".toList).getD (10 - 0, 20 - 0)).1,
              ((lookupE sGeo.centroids "US".toList).getD (10 - 0, 20 - 0)).2,
              .new, 99⟩] }) ∧
    envA.contains ⟨some "840".toList⟩ (10 - 0, 20 - 0) = true ∧
    (∃ pre post, [(⟨some "840".toList⟩ : Feature)] = pre ++ ⟨some "840".toList⟩ :: post ∧
      ∀ f ∈ pre, envA.contains f (10 - 0, 20 - 0) = false) :=
  C5_click_selection envA sGeo ⟨1, 0, 0⟩ [⟨some "840".toList⟩] 10 20 0 0 99
    (10 - 0, 20 - 0) ⟨some "840".toList⟩ "US".toList rfl rfl rfl rfl (by decide)

lemma computeCentroids_proj (env : GeoEnv) (s : RState) :
    (computeCentroids env s).proj = s.proj := by
  rcases s with ⟨w, h, pr, lg, cl, fc, ce, pi, bl⟩
  cases pr <;> cases fc <;> rfl

lemma setSize_proj_of_geo (env : GeoEnv) (s : RState) (rectW rectH : ℚ) (g : ℕ)
    (hg : s.landGeo = some g) :
    (setSize env s rectW rectH).proj =
      match env.fit
          ((max 12 (min ((⌊rectW⌋ : ℤ) : ℚ) ((⌊rectH⌋ : ℤ) : ℚ) * (28 / 1000)),
            max 12 (min ((⌊rectW⌋ : ℤ) : ℚ) ((⌊rectH⌋ : ℤ) : ℚ) * (28 / 1000))),
           (((⌊rectW⌋ : ℤ) : ℚ) -
              max 12 (min ((⌊rectW⌋ : ℤ) : ℚ) ((⌊rectH⌋ : ℤ) : ℚ) * (28 / 1000)),
            ((⌊rectH⌋ : ℤ) : ℚ) -
              max 12 (min ((⌊rectW⌋ : ℤ) : ℚ) ((⌊rectH⌋ : ℤ) : ℚ) * (28 / 1000)))) g with
      | some p => some { p with scale := p.scale * (106 / 100) }
      | none =>
          some ⟨((⌊rectW⌋ : ℤ) : ℚ) / env.twoPi * (106 / 100),
            ((⌊rectW⌋ : ℤ) : ℚ) / 2, ((⌊rectH⌋ : ℤ) : ℚ) / 2⟩ := by
  simp only [setSize, hg]

/-- C6: on every resize with land geometry present, the projection is
rebuilt by fitting to the extent `[[pad, pad], [w − pad, h − pad]]`
with `pad = max(12, min(w, h) · 0.028)` and multiplying the fitted
scale by 1.06; when the fit call fails, it falls back to scale
`(w / 2π) · 1.06` translated to the viewport centre `(w/2, h/2)`
(`w`, `h` are the floored rect dimensions). -/
theorem C6_projection_formula (env : GeoEnv) (s : RState) (rectW rectH : ℚ) (g : ℕ)
    (hg : s.landGeo = some g) :
    (∀ p : Proj,
      env.fit
          ((max 12 (min ((⌊rectW⌋ : ℤ) : ℚ) ((⌊rectH⌋ : ℤ) : ℚ) * (28 / 1000)),
            max 12 (min ((⌊rectW⌋ : ℤ) : ℚ) ((⌊rectH⌋ : ℤ) : ℚ) * (28 / 1000))),
           (((⌊rectW⌋ : ℤ) : ℚ) -
              max 12 (min ((⌊rectW⌋ : ℤ) : ℚ) ((⌊rectH⌋ : ℤ) : ℚ) * (28 / 1000)),
            ((⌊rectH⌋ : ℤ) : ℚ) -
              max 12 (min ((⌊rectW⌋ : ℤ) : ℚ) ((⌊rectH⌋ : ℤ) : ℚ) * (28 / 1000)))) g
        = some p →
      (onResize env s rectW rectH).proj = some { p with scale := p.scale * (106 / 100) }) ∧
    (env.fit
          ((max 12 (min ((⌊rectW⌋ : ℤ) : ℚ) ((⌊rectH⌋ : ℤ) : ℚ) * (28 / 1000)),
            max 12 (min ((⌊rectW⌋ : ℤ) : ℚ) ((⌊rectH⌋ : ℤ) : ℚ) * (28 / 1000))),
           (((⌊rectW⌋ : ℤ) : ℚ) -
              max 12 (min ((⌊rectW⌋ : ℤ) : ℚ) ((⌊rectH⌋ : ℤ) : ℚ) * (28 / 1000)),
            ((⌊rectH⌋ : ℤ) : ℚ) -
              max 12 (min ((⌊rectW⌋ : ℤ) : ℚ) ((⌊rectH⌋ : ℤ) : ℚ) * (28 / 1000)))) g
        = none →
      (onResize env s rectW rectH).proj =
        some ⟨((⌊rectW⌋ : ℤ) : ℚ) / env.twoPi * (106 / 100),
          ((⌊rectW⌋ : ℤ) : ℚ) / 2, ((⌊rectH⌋ : ℤ) : ℚ) / 2⟩) := by
  have hbase : (onResize env s rectW rectH).proj = (setSize env s rectW rectH).proj :=
    computeCentroids_proj env (setSize env s rectW rectH)
  constructor
  · intro p hfit
    rw [hbase, setSize_proj_of_geo env s rectW rectH g hg, hfit]
  · intro hfit
    rw [hbase, setSize_proj_of_geo env s rectW rectH g hg, hfit]

/-- C6 witness: the formula at viewport 800×600, once with a succeeding
`fitExtent` (projection scale 2 becomes 2·1.06) and once with a failing
one (fallback `800/(2π)·1.06` centred at (400, 300)). -/
theorem C6_projection_formula_witness :
    (onResize envA sGeo 800 600).proj =
      some { (⟨2, 3, 4⟩ : Proj) with scale := (2 : ℚ) * (106 / 100) } ∧
    (onResize envB sGeo 800 600).proj =
      some ⟨((⌊(800 : ℚ)⌋ : ℤ) : ℚ) / envB.twoPi * (106 / 100),
        ((⌊(800 : ℚ)⌋ : ℤ) : ℚ) / 2, ((⌊(600 : ℚ)⌋ : ℤ) : ℚ) / 2⟩ :=
  ⟨(C6_projection_formula envA sGeo 800 600 0 rfl).1 ⟨2, 3, 4⟩ rfl,
    (C6_projection_formula envB sGeo 800 600 0 rfl).2 rfl⟩

lemma lookupE_buildCentroids_isSome (env : GeoEnv) (p : Proj) (l : List Feature) :
    ∀ (acc : List (Str × (ℚ × ℚ))) (k : Str),
      (lookupE (buildCentroids env p acc l) k).isSome = true ↔
        (lookupE acc k).isSome = true ∨
          ∃ feat ∈ l,
            alpha2FromNumeric env.isoTable (some (padStart3 (feat.id.getD []))) = some k ∧
            (env.centroid p feat).isSome = true := by
  induction l with
  | nil =>
      intro acc k
      simp [buildCentroids]
  | cons feat rest ih =>
      intro acc k
      cases ha2 : alpha2FromNumeric env.isoTable (some (padStart3 (feat.id.getD []))) with
      | none =>
          have hred : buildCentroids env p acc (feat :: rest) =
              buildCentroids env p acc rest := by
            rw [buildCentroids, ha2]
          rw [hred, ih acc k]
          constructor
          · rintro (h | ⟨f, hf, hfa, hfc⟩)
            · exact Or.inl h
            · exact Or.inr ⟨f, List.mem_cons_of_mem _ hf, hfa, hfc⟩
          · rintro (h | ⟨f, hf, hfa, hfc⟩)
            · exact Or.inl h
            · rcases List.mem_cons.mp hf with rfl | hf
              · rw [ha2] at hfa
                exact Option.noConfusion hfa
              · exact Or.inr ⟨f, hf, hfa, hfc⟩
      | some a2 =>
          cases hcen : env.centroid p feat with
          | none =>
              have hred : buildCentroids env p acc (feat :: rest) =
                  buildCentroids env p acc rest := by
                rw [buildCentroids, ha2, hcen]
              rw [hred, ih acc k]
              constructor
              · rintro (h | ⟨f, hf, hfa, hfc⟩)
                · exact Or.inl h
                · exact Or.inr ⟨f, List.mem_cons_of_mem _ hf, hfa, hfc⟩
              · rintro (h | ⟨f, hf, hfa, hfc⟩)
                · exact Or.inl h
                · rcases List.mem_cons.mp hf with rfl | hf
                  · rw [hcen] at hfc
                    simp at hfc
                  · exact Or.inr ⟨f, hf, hfa, hfc⟩
          | some c =>
              have hred : buildCentroids env p acc (feat :: rest) =
                  buildCentroids env p (setEntry acc a2 c) rest := by
                rw [buildCentroids, ha2, hcen]
              rw [hred, ih (setEntry acc a2 c) k, lookupE_setEntry_isSome]
              constructor
              · rintro ((hka | h) | ⟨f, hf, hfa, hfc⟩)
                · refine Or.inr ⟨feat, List.mem_cons_self _ _, ?_, by rw [hcen]; rfl⟩
                  rw [ha2, hka]
                · exact Or.inl h
                · exact Or.inr ⟨f, List.mem_cons_of_mem _ hf, hfa, hfc⟩
              · rintro (h | ⟨f, hf, hfa, hfc⟩)
                · exact Or.inl (Or.inr h)
                · rcases List.mem_cons.mp hf with rfl | hf
                  · rw [ha2] at hfa
                    injection hfa with hfa
                    exact Or.inl (Or.inl hfa.symm)
                  · exact Or.inr ⟨f, hf, hfa, hfc⟩

/-- C7: a country feature contributes a key to the Centroid Index iff
its zero-padded numeric id has an alpha-2 mapping and its centroid
under the current projection is defined (finite, no exception); and a
resize rebuilds the index from empty under exactly the projection
stored by the same resize step, so the index is never paired with a
stale projection. -/
theorem C7_centroid_index (env : GeoEnv) (s : RState) (p : Proj) (fc : List Feature)
    (a2 : Str) (rectW rectH : ℚ) (p₂ : Proj)
    (hp : s.proj = some p) (hfc : s.countriesFC = some fc)
    (hp₂ : (setSize env s rectW rectH).proj = some p₂) :
    ((lookupE (computeCentroids env s).centroids a2).isSome = true ↔
      ∃ feat ∈ fc,
        alpha2FromNumeric env.isoTable (some (padStart3 (feat.id.getD []))) = some a2 ∧
        (env.centroid p feat).isSome = true) ∧
    (onResize env s rectW rectH).proj = some p₂ ∧
    (onResize env s rectW rectH).centroids = buildCentroids env p₂ [] fc := by
  have hcc : (computeCentroids env s).centroids = buildCentroids env p [] fc := by
    simp only [computeCentroids, hp, hfc]
  have hfc2 : (setSize env s rectW rectH).countriesFC = some fc := hfc
  refine ⟨?_, ?_, ?_⟩
  · rw [hcc, lookupE_buildCentroids_isSome]
    simp [lookupE]
  · rw [show (onResize env s rectW rectH).proj = (setSize env s rectW rectH).proj from
      computeCentroids_proj env (setSize env s rectW rectH)]
    exact hp₂
  · show (computeCentroids env (setSize env s rectW rectH)).centroids = _
    simp only [computeCentroids, hp₂, hfc2]

/-- C7 witness: the index membership iff and the resize rebuild, on the
one-feature world `840 ↦ US` under the always-succeeding environment. -/
theorem C7_centroid_index_witness :
    ((lookupE (computeCentroids envA sGeo).centroids "US".toList).isSome = true ↔
      ∃ feat ∈ [(⟨some "840".toList⟩ : Feature)],
        alpha2FromNumeric envA.isoTable (some (padStart3 (feat.id.getD []))) =
          some "US".toList ∧
        (envA.centroid ⟨1, 0, 0⟩ feat).isSome = true) ∧
    (onResize envA sGeo 800 600).proj = some ⟨2 * (106 / 100), 3, 4⟩ ∧
    (onResize envA sGeo 800 600).centroids =
      buildCentroids envA ⟨2 * (106 / 100), 3, 4⟩ [] [⟨some "840".toList⟩] :=
  C7_centroid_index envA sGeo ⟨1, 0, 0⟩ [⟨some "840".toList⟩] "US".toList 800 600
    ⟨2 * (106 / 100), 3, 4⟩ rfl rfl rfl

/-- C8: after a failed geometry load (no projection, no geometry, no
features, empty index and blip list) a frame draws only the gradient
background and leaves the state unchanged, a click selects nothing and
pushes nothing, a pointer-move emits nothing, and a blip event changes
nothing — the worst case is a static gradient with no interactivity. -/
theorem C8_degraded_mode (env : GeoEnv) (s : RState)
    (now cx cy rl rt : ℚ) (detail : Option (Str × BlipKind))
    (h1 : s.proj = none) (h2 : s.landGeo = none) (h3 : s.countryLines = none)
    (h4 : s.countriesFC = none) (h5 : s.centroids = []) (h6 : s.blips = []) :
    (frame s now).1 = [DrawOp.gradient] ∧
    (frame s now).2 = s ∧
    onClick env s cx cy rl rt now = (none, s) ∧
    onPointerMove s cx cy rl rt = none ∧
    onBlip env detail s now = s := by
  rcases s with ⟨w, h, pr, lg, cl, fc, ce, pi, bl⟩
  dsimp only at h1 h2 h3 h4 h5 h6
  subst h1 h2 h3 h4 h5 h6
  refine ⟨rfl, rfl, rfl, rfl, ?_⟩
  rcases detail with _ | ⟨raw, kind⟩
  · rfl
  · rfl

/-- C8 witness: the degraded-mode conclusions at the concrete
post-failure state. -/
theorem C8_degraded_mode_witness :
    (frame sNoGeo 123).1 = [DrawOp.gradient] ∧
    (frame sNoGeo 123).2 = sNoGeo ∧
    onClick envB sNoGeo 5 6 0 0 123 = (none, sNoGeo) ∧
    onPointerMove sNoGeo 5 6 0 0 = none ∧
    onBlip envB (some ("US".toList, .new)) sNoGeo 123 = sNoGeo :=
  C8_degraded_mode envB sNoGeo 123 5 6 0 0 (some ("US".toList, .new))
    rfl rfl rfl rfl rfl rfl

lemma frame_ops (s : RState) (now : ℚ) :
    (frame s now).1 =
      DrawOp.gradient ::
        ((if s.proj.isSome ∧ s.landGeo.isSome then [DrawOp.land] else []) ++
          (if s.proj.isSome ∧ s.countryLines.isSome then [DrawOp.boundaries] else []) ++
          drawPins s ++ (drawBlips now s.blips).1) := rfl

/-- C9 counterexample: `"ZZ"` is a valid two-uppercase-letter code,
reaches the Pin Set through a pin event, yet the next render pass draws
no pin for it (only the gradient) because it has no indexed centroid —
so "each added code is drawn in every subsequent render pass" fails. -/
theorem C9_pin_draw_counterexample :
    isTwoUpper "ZZ".toList = true ∧
    onPin (some "zz".toList) [] = ["ZZ".toList] ∧
    "ZZ".toList ∈ sPinned.pinned ∧
    (frame sPinned 0).1 = [DrawOp.gradient] :=
  ⟨by decide, by decide, by decide, rfl⟩

/-- C9 amended: the Pin Set never shrinks — `onPin` preserves every
member and never decreases the length — and every pinned code that has
an indexed centroid (projection present) is drawn as a pin op in every
render pass. -/
theorem C9_pin_monotone_draw (detail : Option Str) (pinned : List Str) (s : RState)
    (code : Str) (pos : ℚ × ℚ) (now : ℚ) (p : Proj)
    (hp : s.proj = some p) (hmem : code ∈ s.pinned)
    (hpos : lookupE s.centroids code = some pos) :
    (pinned.length ≤ (onPin detail pinned).length ∧
      ∀ x ∈ pinned, x ∈ onPin detail pinned) ∧
    DrawOp.pin code pos.1 pos.2 ∈ (frame s now).1 := by
  constructor
  · cases detail with
    | none => exact ⟨le_refl _, fun x hx => hx⟩
    | some c =>
        rw [onPin_some]
        by_cases hc : c = []
        · rw [if_pos hc]
          exact ⟨le_refl _, fun x hx => hx⟩
        · rw [if_neg hc]
          unfold addToSet
          by_cases hmem' : strUpper c ∈ pinned
          · rw [if_pos hmem']
            exact ⟨le_refl _, fun x hx => hx⟩
          · rw [if_neg hmem']
            refine ⟨?_, fun x hx => List.mem_append.mpr (Or.inl hx)⟩
            rw [List.length_append]
            simp
  · have hpin : DrawOp.pin code pos.1 pos.2 ∈ drawPins s := by
      have hdp : drawPins s =
          s.pinned.filterMap
            (fun c => (lookupE s.centroids c).map fun q => DrawOp.pin c q.1 q.2) := by
        unfold drawPins
        rw [hp]
      rw [hdp]
      refine List.mem_filterMap.mpr ⟨code, hmem, ?_⟩
      rw [hpos]
      rfl
    rw [frame_ops]
    exact List.mem_cons_of_mem _
      (List.mem_append.mpr (Or.inl (List.mem_append.mpr (Or.inr hpin))))

/-- C9 witness: pinning `us` onto an empty set grows it, and the pinned
`US` with centroid `(7, 8)` yields its pin op in the frame. -/
theorem C9_pin_monotone_draw_witness :
    (([] : List Str).length ≤ (onPin (some "us".toList) []).length ∧
      ∀ x ∈ ([] : List Str), x ∈ onPin (some "us".toList) []) ∧
    DrawOp.pin "US".toList (((7 : ℚ), (8 : ℚ))).1 (((7 : ℚ), (8 : ℚ))).2
      ∈ (frame sPinnedGeo 0).1 :=
  C9_pin_monotone_draw (some "us".toList) [] sPinnedGeo "US".toList (7, 8) 0
    ⟨1, 0, 0⟩ rfl (by decide) rfl

end WB
